import Mathlib

/-!
Verification of the geojson-map core against its specification.

The JavaScript sources are shallowly embedded: numbers are modelled as
rationals, JS `Map`/`Set` values as insertion-ordered association lists /
duplicate-free lists, and the timer queue of `setTimeout` as an explicit
list of (fire time, payload) pairs.  `String.prototype.toLowerCase` is
embedded as ASCII case mapping and `localeCompare` as code-point
comparison (exact on the digit municipality codes this program sorts).
-/

namespace GeoMap

/-! ### JavaScript string primitives -/

/-- Embedding of the JS idiom `x || ''` for a possibly-missing string
property (both a missing property and an empty string yield `""`). -/
def jsOrEmpty : Option String → String
  | some s => s
  | none => ""

/-- Whitespace characters recognised by `String.prototype.trim`. -/
def isJsWs (c : Char) : Bool :=
  c = ' ' || c = '\t' || c = '\n' || c = '\r' || c = '\x0b' || c = '\x0c' ||
  c = '\u00A0' || c = '\uFEFF'

/-- Embedding of `String.prototype.trim`. -/
def jsTrim (s : String) : String :=
  ⟨((s.data.dropWhile isJsWs).reverse.dropWhile isJsWs).reverse⟩

/-- Does the needle match at the head of the haystack. -/
def leadMatch : List Char → List Char → Bool
  | _, [] => true
  | [], _ :: _ => false
  | c :: s, d :: t => c = d && leadMatch s t

/-- Substring containment on character lists. -/
def containsSub : List Char → List Char → Bool
  | [], t => t.isEmpty
  | s@(_ :: s'), t => leadMatch s t || containsSub s' t

/-- Embedding of `String.prototype.includes`. -/
def jsIncludes (s t : String) : Bool :=
  containsSub s.data t.data

/-- Embedding of `String.prototype.toLowerCase` (ASCII case mapping). -/
def jsToLower (s : String) : String :=
  s.map Char.toLower

/-- Embedding of `Math.round` (half-up, toward positive infinity). -/
def jsRound (q : ℚ) : ℤ :=
  ⌊q + 1/2⌋

/-- Embedding of `Math.round(x * 10000) / 10000` from part_004. -/
def round4 (q : ℚ) : ℚ :=
  (jsRound (q * 10000) : ℚ) / 10000

/-! ### Search data records and search (script.js lines 420-458, 241-249)

A record of `search-data.json`, as produced by part_004 and consumed by
`showSearchResults`. -/

structure Municipality where
  code : String
  pref : String
  gun : String
  city : String
  full : String
  center : ℚ × ℚ
  bounds : (ℚ × ℚ) × (ℚ × ℚ)
deriving DecidableEq, Repr

/-- Embedding of `showSearchResults` (script.js lines 420-429): filter by
case-insensitive substring on full, city, pref; keep the first 10. -/
def showSearchResults (searchData : List Municipality) (query : String) :
    List Municipality :=
  let normalizedQuery := jsToLower query
  (searchData.filter fun m =>
    jsIncludes (jsToLower m.full) normalizedQuery ||
    jsIncludes (jsToLower m.city) normalizedQuery ||
    jsIncludes (jsToLower m.pref) normalizedQuery).take 10

/-- Embedding of the search input handler (script.js lines 241-249): trim
the raw value; only a trimmed query of length at least 1 is searched,
otherwise the result list is cleared. -/
def handleSearchInput (searchData : List Municipality) (raw : String) :
    List Municipality :=
  let query := jsTrim raw
  if 1 ≤ query.length then showSearchResults searchData query else []

/-- Specification-side predicate: one string contains another as a
case-insensitive substring. -/
def containsCI (hay needle : String) : Bool :=
  jsIncludes (jsToLower hay) (jsToLower needle)

/-- Specification-side predicate of C4: a unit matches when any of
fullName, city, prefecture contains the query case-insensitively. -/
def unitMatches (query : String) (m : Municipality) : Bool :=
  containsCI m.full query || containsCI m.city query || containsCI m.pref query

/-! ### Category table (part_002 loadCSV, lines 346-384) -/

/-- The global `specifiedCities` Map: insertion-ordered association of
column header to member set (a JS `Set`, embedded as a duplicate-free
insertion-ordered list). -/
abbrev CategoryTable := List (String × List String)

/-- A cell value as delivered by Papa Parse in header mode: a string, or
an array of strings (the `__parsed_extra` value of an overlong row).
Calling `.trim()` on the array form throws a `TypeError`. -/
inductive Cell where
  | str (s : String)
  | strArr (l : List String)
deriving DecidableEq, Repr

/-- A parsed row: the keys present on the row object, in order. -/
abbrev Row := List (String × Cell)

/-- Header-exclusion rule: `key.includes('都道府県')`. -/
def prefExcluded (key : String) : Bool :=
  jsIncludes key "都道府県"

/-- Embedding of `Set.prototype.add` on an insertion-ordered list. -/
def jsSetAdd (l : List String) (x : String) : List String :=
  if x ∈ l then l else l ++ [x]

/-- Embedding of `specifiedCities.set(key, list)` where `list` is
`specifiedCities.get(key) || new Set()` with `v` added: an existing key
keeps its position, a new key is appended. -/
def tableInsert (st : CategoryTable) (key v : String) : CategoryTable :=
  if st.any fun e => e.1 == key then
    st.map fun e => if e.1 = key then (e.1, jsSetAdd e.2 v) else e
  else st ++ [(key, [v])]

/-- One key of one row (part_002 lines 359-375).  The Bool is `false`
when the body threw (`.trim()` on an array cell). -/
def runCell (st : CategoryTable) (key : String) (cell : Cell) :
    CategoryTable × Bool :=
  if prefExcluded key then (st, true)
  else
    match cell with
    | .str s =>
      if s ≠ "" ∧ jsTrim s ≠ "" then (tableInsert st key (jsTrim s), true)
      else (st, true)
    | .strArr _ => (st, false)

/-- Process the keys of one row in order, stopping at a throw. -/
def runCells (st : CategoryTable) : List (String × Cell) → CategoryTable × Bool
  | [] => (st, true)
  | (k, c) :: rest =>
    match runCell st k c with
    | (st', true) => runCells st' rest
    | (st', false) => (st', false)

/-- Process the rows in order, stopping at a throw. -/
def runRows (st : CategoryTable) : List Row → CategoryTable × Bool
  | [] => (st, true)
  | r :: rs =>
    match runCells st r with
    | (st', true) => runRows st' rs
    | (st', false) => (st', false)

/-- The possible outcomes of the fetch/parse stage of `loadCSV`. -/
inductive FetchOutcome where
  | fetchFailure
  | parseFailure
  | parsed (rows : List Row)

/-- Embedding of `loadCSV` (part_002 lines 346-384) as a transition on the
global `specifiedCities` table.  A fetch failure throws before Papa Parse
runs; the Papa `error` callback rejects without the `complete` callback
running; the `complete` callback first runs `specifiedCities.clear()` and
then processes the rows, mutating the global table in place.  The Bool is
`true` exactly when the load succeeded. -/
def loadCSV (st : CategoryTable) : FetchOutcome → CategoryTable × Bool
  | .fetchFailure => (st, false)
  | .parseFailure => (st, false)
  | .parsed rows => runRows [] rows

/-! ### Color rule (part_002 getDefaultColor lines 518-532,
buildColorExpression lines 535-570) -/

/-- The fixed 8-color palette of `getDefaultColor`. -/
def colorsPalette : List String :=
  ["#4a90d9", "#50e3c2", "#f5a623", "#9013fe",
   "#b8e986", "#ff6b35", "#8b572a", "#7ed321"]

/-- Embedding of `getDefaultColor`: palette entry at the header's position
among the table keys, modulo the palette length.  (The JS `indexOf = -1`
case cannot arise: the function is only applied to keys of the map.) -/
def getDefaultColor (specifiedCities : CategoryTable) (headerName : String) :
    String :=
  let index := (specifiedCities.map Prod.fst).indexOf headerName
  colorsPalette.getD (index % colorsPalette.length) ""

/-- Embedding of `CsvHeaderColors.get(h) || getDefaultColor(h)`: JS `||`
falls through on a missing entry and on the falsy empty string. -/
def jsOrColor (explicit : Option String) (fallback : String) : String :=
  match explicit with
  | some c => if c = "" then fallback else c
  | none => fallback

/-- The color resolved for a header: explicit override else palette. -/
def resolveColor (headerColors : List (String × String))
    (specifiedCities : CategoryTable) (headerName : String) : String :=
  jsOrColor (headerColors.lookup headerName)
    (getDefaultColor specifiedCities headerName)

/-- The tile-feature properties the compiled expression reads. -/
structure TileProps where
  N03_003 : Option String
  N03_004 : Option String
deriving DecidableEq, Repr

/-- The compound key `concat(coalesce(get N03_003, ''), coalesce(get
N03_004, ''))` of the compiled expression. -/
def compoundKey (u : TileProps) : String :=
  jsOrEmpty u.N03_003 ++ jsOrEmpty u.N03_004

/-- The shape of the MapLibre expression `buildColorExpression` returns:
either a constant color string, or a `case` chain of (member list, color)
branches with a default color. -/
inductive ColorExpr where
  | lit (c : String)
  | caseExpr (branches : List (List String × String)) (deflt : String)
deriving DecidableEq, Repr

/-- Embedding of `buildColorExpression` (part_002 lines 535-570): if the
union of all member sets is empty return constant gray, else one `in`
branch per category, in map order, with resolved color, defaulting to
gray. -/
def buildColorExpression (headerColors : List (String × String))
    (specifiedCities : CategoryTable) : ColorExpr :=
  let s := specifiedCities.foldl
    (fun acc e => e.2.foldl (fun a c => if c ∈ a then a else a ++ [c]) acc) []
  if s.length = 0 then .lit "#cccccc"
  else
    .caseExpr
      (specifiedCities.map fun e =>
        (e.2, resolveColor headerColors specifiedCities e.1))
      "#cccccc"

/-- MapLibre `case` semantics: conditions evaluated in order, first true
condition's value wins, else the default.  Each branch condition is
membership of the unit's compound key in the branch's literal list. -/
def evalColorExpr (expr : ColorExpr) (u : TileProps) : String :=
  match expr with
  | .lit c => c
  | .caseExpr branches deflt =>
    match branches.find? fun b => b.1.contains (compoundKey u) with
    | some b => b.2
    | none => deflt

/-- Specification-side classification of C1: the color of the first
category, in insertion order, whose member set contains the unit's
compound key; gray when none does. -/
def firstMatchColor (headerColors : List (String × String))
    (specifiedCities : CategoryTable) (u : TileProps) : String :=
  match specifiedCities.find? fun e => e.2.contains (compoundKey u) with
  | some e => resolveColor headerColors specifiedCities e.1
  | none => "#cccccc"

/-! ### Highlight controller (part_002 lines 733-771, script.js lines
478-516)

The globals are `highlightedCode` and the browser's timer queue; each
`setTimeout(cb, 5000)` is embedded as a queued (absolute fire time, armed
code) pair.  Nothing in the source ever calls `clearTimeout`. -/

structure HighlightState where
  highlightedCode : Option String
  timers : List (Nat × String)
deriving DecidableEq, Repr

/-- The state before any highlight request. -/
def initialHighlightState : HighlightState :=
  ⟨none, []⟩

/-- Embedding of `clearHighlight`: resets the code (the layer filter
update carries no further model state). -/
def clearHighlight (st : HighlightState) : HighlightState :=
  { st with highlightedCode := none }

/-- Embedding of `highlightMunicipality(code)` called at time `now`: set
the global code and arm one more 5-unit timer; pending timers are left in
the queue untouched. -/
def highlightMunicipality (now : Nat) (code : String) (st : HighlightState) :
    HighlightState :=
  { highlightedCode := some code, timers := st.timers ++ [(now + 5, code)] }

/-- Embedding of the `setTimeout` callback armed for `code`: clear only if
the global still equals the armed code. -/
def timerFires (code : String) (st : HighlightState) : HighlightState :=
  if st.highlightedCode = some code then clearHighlight st else st

/-- Run every timer due at `now`, in arming order, removing them from the
queue. -/
def fireDue (now : Nat) (st : HighlightState) : HighlightState :=
  let due := st.timers.filter fun t => t.1 ≤ now
  let rest := st.timers.filter fun t => ¬ t.1 ≤ now
  due.foldl (fun acc t => timerFires t.2 acc) { st with timers := rest }

/-- Modelled from the spec: transition `highlight(code)` of section 4.7,
which cancels any pending expiry timer before arming the new one.  The
cancellation step is absent from the source, so this definition exists
only to be compared with `highlightMunicipality`. -/
def highlightCancelSpec (now : Nat) (code : String) (_st : HighlightState) :
    HighlightState :=
  { highlightedCode := some code, timers := [(now + 5, code)] }

/-! ### Nested coordinate values and the flatteners (part_004) -/

/-- A JSON coordinate value: a number, or an array of further values.  A
point is an array whose first two entries are numbers. -/
inductive JVal where
  | num (q : ℚ)
  | arr (l : List JVal)

/-- A 2D point. -/
abbrev Pt := ℚ × ℚ

mutual

/-- Structural size of a coordinate value, used as loop fuel. -/
def sizeJ : JVal → Nat
  | .num _ => 1
  | .arr l => 1 + sizeL l

/-- Structural size of a list of coordinate values. -/
def sizeL : List JVal → Nat
  | [] => 0
  | v :: vs => sizeJ v + sizeL vs

end

/-- The point test of the part_004 stack flattener:
`typeof item[0] === 'number' && typeof item[1] === 'number'`; such an item
contributes the pair of its first two entries. -/
def jsIsPoint : List JVal → Option Pt
  | .num x :: .num y :: _ => some (x, y)
  | _ => none

/-- The while loop of part_004 lines 146-156, head of the list being the
top of the stack: pop; skip non-arrays; emit point items; push the
elements of other arrays in order (so the last element ends up on top).
The loop runs at most `sizeL` of the stack iterations, which the fuel
argument makes explicit; `flattenLoopF_eq_of_fuel` below shows any
sufficient fuel gives the same result. -/
def flattenLoopF : Nat → List JVal → List Pt
  | _, [] => []
  | 0, _ :: _ => []
  | fuel + 1, .num _ :: rest => flattenLoopF fuel rest
  | fuel + 1, .arr l :: rest =>
    match jsIsPoint l with
    | some p => p :: flattenLoopF fuel rest
    | none => flattenLoopF fuel (l.reverse ++ rest)

/-- The stack flattener applied to an initial stack. -/
def flattenLoop (stack : List JVal) : List Pt :=
  flattenLoopF (sizeL stack) stack

/-- Embedding of part_004 lines 140-156 as a whole: the stack is filled by
pushing the accumulated `coordinates` entries in order, so the first entry
ends up at the bottom. -/
def flattenCoords (coords : List JVal) : List Pt :=
  flattenLoop coords.reverse

mutual

/-- Specification-side depth-first flattening of one value (section 4.1):
a point contributes itself, any other array is traversed left to right. -/
def dfsFlatten : JVal → List Pt
  | .num _ => []
  | .arr l =>
    match jsIsPoint l with
    | some p => [p]
    | none => dfsList l

/-- Specification-side depth-first flattening of a list of values. -/
def dfsList : List JVal → List Pt
  | [] => []
  | v :: vs => dfsFlatten v ++ dfsList vs

end

/-! ### Unit aggregation (part_004 extractMunicipalities, lines 93-201) -/

/-- A raw GeoJSON feature as read by part_004: the four name/code
properties and the geometry's `coordinates` value when present (absent
when `feature.geometry` or its `coordinates` is missing). -/
structure Feature where
  N03_001 : Option String
  N03_003 : Option String
  N03_004 : Option String
  N03_007 : Option String
  geometry : Option JVal

/-- The per-code accumulator of `municipalitiesMap`. -/
structure Accum where
  pref : String
  gun : String
  city : String
  full : String
  coords : List JVal

/-- Embedding of the first forEach of `extractMunicipalities` (lines
106-133) for one feature: skip when city or code is empty; create the
entry on first sight of the code; append the geometry's coordinates. -/
def addFeature (groups : List (String × Accum)) (f : Feature) :
    List (String × Accum) :=
  let code := jsOrEmpty f.N03_007
  let cityName := jsOrEmpty f.N03_004
  if cityName = "" ∨ code = "" then groups
  else
    let prefName := jsOrEmpty f.N03_001
    let gunName := jsOrEmpty f.N03_003
    let g1 :=
      if groups.any fun e => e.1 == code then groups
      else groups ++ [(code, ⟨prefName, gunName, cityName, gunName ++ cityName, []⟩)]
    match f.geometry with
    | none => g1
    | some c =>
      g1.map fun e =>
        if e.1 = code then (e.1, { e.2 with coords := e.2.coords ++ [c] }) else e

/-- Fold of `sumX += x` over a list. -/
def sumList (l : List ℚ) : ℚ :=
  l.foldl (· + ·) 0

/-- Fold of `if (x < min) min = x` with `Infinity` start, on a nonempty
list (the empty case is unreachable behind the `allCoords.length === 0`
guard). -/
def minList : List ℚ → ℚ
  | [] => 0
  | x :: xs => xs.foldl min x

/-- Fold of `if (x > max) max = x` with `-Infinity` start. -/
def maxList : List ℚ → ℚ
  | [] => 0
  | x :: xs => xs.foldl max x

/-- Embedding of the second forEach of `extractMunicipalities` (lines
138-195) for one entry: flatten, drop point-free codes, compute the
rounded center and bounds. -/
def emitRecord (code : String) (a : Accum) : Option Municipality :=
  let pts := flattenCoords a.coords
  if pts.isEmpty then none
  else
    some
      { code := code, pref := a.pref, gun := a.gun, city := a.city,
        full := a.full,
        center :=
          (round4 (sumList (pts.map Prod.fst) / pts.length),
           round4 (sumList (pts.map Prod.snd) / pts.length)),
        bounds :=
          ((round4 (minList (pts.map Prod.fst)),
            round4 (minList (pts.map Prod.snd))),
           (round4 (maxList (pts.map Prod.fst)),
            round4 (maxList (pts.map Prod.snd)))) }

/-- The comparator of `municipalities.sort((a, b) =>
a.code.localeCompare(b.code))`, embedded as code-point comparison. -/
def muniLE (a b : Municipality) : Prop :=
  a.code ≤ b.code

instance : DecidableRel muniLE := fun a b =>
  inferInstanceAs (Decidable (a.code ≤ b.code))

instance : IsTotal Municipality muniLE :=
  ⟨fun a b => le_total a.code b.code⟩

instance : IsTrans Municipality muniLE :=
  ⟨fun _ _ _ h h' => le_trans h h'⟩

/-- Embedding of `extractMunicipalities` (part_004 lines 93-201): group
the features by code, emit one record per code with points, sort by code
(the JS stable sort embedded as insertion sort). -/
def extractMunicipalities (features : List Feature) : List Municipality :=
  let groups := features.foldl addFeature []
  List.insertionSort muniLE (groups.filterMap fun e => emitRecord e.1 e.2)

/-- Specification-side: is the feature kept by the aggregation (both a
city name and a code present)? -/
def keptFeature (f : Feature) : Bool :=
  jsOrEmpty f.N03_004 ≠ "" && jsOrEmpty f.N03_007 ≠ ""

/-- Specification-side: the coordinates the feature contributes. -/
def featCoords (f : Feature) : List JVal :=
  match f.geometry with
  | none => []
  | some c => [c]

/-- Specification-side: the coordinate values pooled for one code, in
feature order. -/
def pooledCoords (features : List Feature) (code : String) : List JVal :=
  (features.filter fun f => keptFeature f && jsOrEmpty f.N03_007 == code).flatMap
    featCoords

/-- Specification-side: the vertices pooled for one code, in depth-first
order. -/
def pooledPoints (features : List Feature) (code : String) : List Pt :=
  dfsList (pooledCoords features code)

/-! ### Shoelace area filter -/

/-- A polygon ring and a polygon of a MultiPolygon. -/
abbrev Ring := List Pt

/-- A polygon: its rings, the outer ring first. -/
abbrev Poly := List Ring

/-- Modelled from the spec: section 4.2's ShoelaceAreaFilter is not
implemented under src/ (the shell pipeline delegates preprocessing to
mapshaper), so the unsigned shoelace area of a ring is taken from the
spec's formula `|Σ (x_i·y_(i+1) − x_(i+1)·y_i)| / 2`, indices modulo the
ring length: consecutive pairs are formed by zipping the ring with its
rotation by one. -/
def shoelaceArea (ring : Ring) : ℚ :=
  |((ring.zip (ring.rotate 1)).map fun pq => pq.1.1 * pq.2.2 - pq.2.1 * pq.1.2).sum| / 2

/-- Modelled from the spec: keep the polygons of a MultiPolygon whose
outer ring (ring index 0) has area not below the threshold. -/
def filterPolygons (threshold : ℚ) (polys : List Poly) : List Poly :=
  polys.filter fun poly => ¬ shoelaceArea (poly.headD []) < threshold

/-- Modelled from the spec: the filtered feature, `none` when every
polygon was discarded. -/
def areaFilterFeature (threshold : ℚ) (polys : List Poly) : Option (List Poly) :=
  let kept := filterPolygons threshold polys
  if kept.isEmpty then none else some kept

/-- Modelled from the spec: the filtered collection, dropping features
whose every polygon was discarded. -/
def areaFilterCollection (threshold : ℚ) (features : List (List Poly)) :
    List (List Poly) :=
  features.filterMap (areaFilterFeature threshold)

/-- The successor index modulo the ring length. -/
def cyclicNext (n : ℕ) (i : Fin n) : Fin n :=
  ⟨((i : ℕ) + 1) % n, Nat.mod_lt _ i.pos⟩

/-! ### Concrete fixtures used by witnesses and counterexamples -/

/-- A sample search record. -/
def sampleMuni : Municipality :=
  { code := "13113", pref := "東京都", gun := "", city := "渋谷区",
    full := "渋谷区", center := (0, 0), bounds := ((0, 0), (0, 0)) }

/-- A second sample search record. -/
def sampleMuni2 : Municipality :=
  { code := "13104", pref := "東京都", gun := "", city := "新宿区",
    full := "新宿区", center := (0, 0), bounds := ((0, 0), (0, 0)) }

/-- A category table as it stands before a reload. -/
def preTable : CategoryTable :=
  [("A", ["x"])]

/-- A reload whose `complete` callback throws at an array-valued cell
after the table was cleared. -/
def badOutcome : FetchOutcome :=
  .parsed [[("B", Cell.str "y"), ("C", Cell.strArr [])]]

/-- Two same-code highlight requests 4 time units apart, followed by the
first timer's fire time, under the source semantics. -/
def doubleSame : HighlightState :=
  fireDue 5 (highlightMunicipality 4 "13101"
    (highlightMunicipality 0 "13101" initialHighlightState))

/-- The same schedule under the spec's cancel-on-highlight semantics. -/
def doubleSameSpec : HighlightState :=
  fireDue 5 (highlightCancelSpec 4 "13101"
    (highlightCancelSpec 0 "13101" initialHighlightState))

/-- A point as a JSON value. -/
def mkPt (x y : ℚ) : JVal :=
  .arr [.num x, .num y]

/-- A Polygon coordinates value holding one triangle ring. -/
def triA : JVal :=
  .arr [.arr [mkPt 0 0, mkPt 2 0, mkPt 2 2]]

/-- A second triangle ring. -/
def triB : JVal :=
  .arr [.arr [mkPt 4 0, mkPt 4 4, mkPt 0 4]]

/-- A triangle feature on code "A". -/
def featTriangleA : Feature :=
  { N03_001 := some "P", N03_003 := some "G", N03_004 := some "C",
    N03_007 := some "A", geometry := some triA }

/-- A second triangle feature on the same code "A". -/
def featTriangleB : Feature :=
  { N03_001 := some "P", N03_003 := some "G", N03_004 := some "C",
    N03_007 := some "A", geometry := some triB }

/-- The accumulator the two triangle features build for code "A". -/
def accEx : Accum :=
  { pref := "P", gun := "G", city := "C", full := "GC", coords := [triA, triB] }

/-- The record the aggregation of the two triangles produces. -/
def mergedRecord : Municipality :=
  { code := "A", pref := "P", gun := "G", city := "C", full := "GC",
    center := (2, 16667/10000),
    bounds := ((0, 0), (4, 4)) }

/-! ## Helper lemmas -/

theorem jsSetAdd_ne_nil (l : List String) (x : String) : jsSetAdd l x ≠ [] := by
  unfold jsSetAdd
  split
  · exact List.ne_nil_of_mem (by assumption)
  · simp

theorem jsTrim_of_all_ws (s : String) (h : ∀ c ∈ s.data, isJsWs c = true) :
    jsTrim s = "" := by
  unfold jsTrim
  rw [List.dropWhile_eq_nil_iff.mpr h]
  rfl

theorem mem_innerFold (l acc : List String) (c : String)
    (h : c ∈ acc ∨ c ∈ l) :
    c ∈ l.foldl (fun a c => if c ∈ a then a else a ++ [c]) acc := by
  induction l generalizing acc with
  | nil => simpa using h
  | cons x xs ih =>
    rw [List.foldl_cons]
    apply ih
    rcases h with hacc | hmem
    · left
      split
      · exact hacc
      · exact List.mem_append_left _ hacc
    · rcases List.mem_cons.mp hmem with rfl | hxs
      · left
        split
        · assumption
        · exact List.mem_append_right _ (List.mem_singleton_self _)
      · right
        exact hxs

theorem mem_unionFold (table : CategoryTable) (acc : List String) (c : String)
    (h : c ∈ acc ∨ ∃ e ∈ table, c ∈ e.2) :
    c ∈ table.foldl
      (fun acc e => e.2.foldl (fun a c => if c ∈ a then a else a ++ [c]) acc)
      acc := by
  induction table generalizing acc with
  | nil =>
    rcases h with hacc | ⟨e, he, _⟩
    · simpa using hacc
    · simp at he
  | cons e es ih =>
    rw [List.foldl_cons]
    rcases h with hacc | ⟨e', he', hc⟩
    · exact ih _ (.inl (mem_innerFold _ _ _ (.inl hacc)))
    · rcases List.mem_cons.mp he' with rfl | hes
      · exact ih _ (.inl (mem_innerFold _ _ _ (.inr hc)))
      · exact ih _ (.inr ⟨e', hes, hc⟩)

theorem tableInsert_nonempty (st : CategoryTable) (key v : String)
    (h : ∀ e ∈ st, e.2 ≠ []) : ∀ e ∈ tableInsert st key v, e.2 ≠ [] := by
  unfold tableInsert
  split
  · intro e he
    rw [List.mem_map] at he
    obtain ⟨e', he', rfl⟩ := he
    split
    · exact jsSetAdd_ne_nil _ _
    · exact h e' he'
  · intro e he
    rcases List.mem_append.mp he with h1 | h2
    · exact h e h1
    · rw [List.mem_singleton] at h2
      subst h2
      simp

theorem runCell_nonempty (st : CategoryTable) (key : String) (c : Cell)
    (h : ∀ e ∈ st, e.2 ≠ []) : ∀ e ∈ (runCell st key c).1, e.2 ≠ [] := by
  unfold runCell
  split
  · exact h
  · match c with
    | .str s =>
      dsimp only
      split
      · exact tableInsert_nonempty st key (jsTrim s) h
      · exact h
    | .strArr l => exact h

theorem runCells_nonempty (cells : List (String × Cell)) :
    ∀ st : CategoryTable, (∀ e ∈ st, e.2 ≠ []) →
    ∀ e ∈ (runCells st cells).1, e.2 ≠ [] := by
  induction cells with
  | nil => intro st h; exact h
  | cons kc rest ih =>
    intro st h
    obtain ⟨k, c⟩ := kc
    rw [runCells]
    rcases hrc : runCell st k c with ⟨st', b⟩
    have hst' : ∀ e ∈ st', e.2 ≠ [] := by
      have := runCell_nonempty st k c h
      rw [hrc] at this
      exact this
    cases b with
    | true => exact ih st' hst'
    | false => exact hst'

theorem runRows_nonempty (rows : List Row) :
    ∀ st : CategoryTable, (∀ e ∈ st, e.2 ≠ []) →
    ∀ e ∈ (runRows st rows).1, e.2 ≠ [] := by
  induction rows with
  | nil => intro st h; exact h
  | cons r rs ih =>
    intro st h
    rw [runRows]
    rcases hrc : runCells st r with ⟨st', b⟩
    have hst' : ∀ e ∈ st', e.2 ≠ [] := by
      have := runCells_nonempty r st h
      rw [hrc] at this
      exact this
    cases b with
    | true => exact ih st' hst'
    | false => exact hst'

theorem keys_tableInsert (st : CategoryTable) (key v k : String)
    (hk : k ≠ key) (h : k ∉ st.map Prod.fst) :
    k ∉ (tableInsert st key v).map Prod.fst := by
  unfold tableInsert
  split
  · rw [List.map_map]
    intro hmem
    apply h
    rw [List.mem_map] at hmem ⊢
    obtain ⟨e', he', hfst⟩ := hmem
    refine ⟨e', he', ?_⟩
    simp only [Function.comp_apply, apply_ite Prod.fst] at hfst
    simpa using hfst
  · rw [List.map_append]
    intro hmem
    rcases List.mem_append.mp hmem with h1 | h2
    · exact h h1
    · simp at h2
      exact hk h2

theorem runCell_keys (st : CategoryTable) (key : String) (c : Cell) (k : String)
    (h : k ∉ st.map Prod.fst)
    (hblank : key = k → ∃ s, c = Cell.str s ∧ jsTrim s = "") :
    k ∉ (runCell st key c).1.map Prod.fst := by
  unfold runCell
  split
  · exact h
  · match c with
    | .str s =>
      dsimp only
      split
      · rename_i hcond
        apply keys_tableInsert st key (jsTrim s) k ?_ h
        intro rfl_eq
        obtain ⟨s', hs', htrim⟩ := hblank rfl_eq.symm
        rw [Cell.str.injEq] at hs'
        subst hs'
        exact hcond.2 htrim
      · exact h
    | .strArr l => exact h

theorem runCells_keys (cells : List (String × Cell)) (k : String) :
    ∀ st : CategoryTable, k ∉ st.map Prod.fst →
    (∀ c : Cell, (k, c) ∈ cells → ∃ s, c = Cell.str s ∧ jsTrim s = "") →
    k ∉ (runCells st cells).1.map Prod.fst := by
  induction cells with
  | nil => intro st h _; exact h
  | cons kc rest ih =>
    intro st h hblank
    obtain ⟨key, c⟩ := kc
    rw [runCells]
    rcases hrc : runCell st key c with ⟨st', b⟩
    have hst' : k ∉ st'.map Prod.fst := by
      have := runCell_keys st key c k h fun hkey =>
        hblank c (by rw [hkey]; exact List.mem_cons_self _ _)
      rw [hrc] at this
      exact this
    cases b with
    | true =>
      exact ih st' hst' fun c' hc' => hblank c' (List.mem_cons_of_mem _ hc')
    | false => exact hst'

theorem runRows_keys (rows : List Row) (k : String) :
    ∀ st : CategoryTable, k ∉ st.map Prod.fst →
    (∀ r ∈ rows, ∀ c : Cell, (k, c) ∈ r → ∃ s, c = Cell.str s ∧ jsTrim s = "") →
    k ∉ (runRows st rows).1.map Prod.fst := by
  induction rows with
  | nil => intro st h _; exact h
  | cons r rs ih =>
    intro st h hblank
    rw [runRows]
    rcases hrc : runCells st r with ⟨st', b⟩
    have hst' : k ∉ st'.map Prod.fst := by
      have := runCells_keys r k st h
        fun c hc => hblank r (List.mem_cons_self _ _) c hc
      rw [hrc] at this
      exact this
    cases b with
    | true =>
      exact ih st' hst' fun r' hr' => hblank r' (List.mem_cons_of_mem _ hr')
    | false => exact hst'

theorem sizeJ_pos (v : JVal) : 1 ≤ sizeJ v := by
  cases v with
  | num q => simp [sizeJ]
  | arr l => simp [sizeJ]

theorem sizeL_cons (v : JVal) (vs : List JVal) :
    sizeL (v :: vs) = sizeJ v + sizeL vs := by
  rw [sizeL]

theorem sizeL_append (a b : List JVal) :
    sizeL (a ++ b) = sizeL a + sizeL b := by
  induction a with
  | nil => simp [sizeL]
  | cons v vs ih =>
    rw [List.cons_append, sizeL_cons, sizeL_cons, ih, Nat.add_assoc]

theorem sizeL_reverse (l : List JVal) : sizeL l.reverse = sizeL l := by
  induction l with
  | nil => rfl
  | cons v vs ih =>
    rw [List.reverse_cons, sizeL_append, sizeL_cons, ih, sizeL_cons, sizeL]
    omega

theorem dfsList_append (a b : List JVal) :
    dfsList (a ++ b) = dfsList a ++ dfsList b := by
  induction a with
  | nil => rfl
  | cons v vs ih =>
    rw [List.cons_append, dfsList, dfsList, ih, List.append_assoc]

theorem flattenLoopF_eq_of_fuel (fuel : Nat) :
    ∀ stack : List JVal, sizeL stack ≤ fuel →
    flattenLoopF fuel stack = (dfsList stack.reverse).reverse := by
  induction fuel with
  | zero =>
    intro stack h
    match stack with
    | [] => rfl
    | v :: vs =>
      exfalso
      rw [sizeL_cons] at h
      have := sizeJ_pos v
      omega
  | succ fuel ih =>
    intro stack h
    match stack with
    | [] => rfl
    | .num q :: rest =>
      rw [flattenLoopF, ih rest (by rw [sizeL_cons] at h; have := sizeJ_pos (JVal.num q); omega)]
      rw [List.reverse_cons, dfsList_append]
      simp [dfsList, dfsFlatten]
    | .arr l :: rest =>
      rw [sizeL_cons, sizeJ] at h
      rw [flattenLoopF]
      rw [List.reverse_cons, dfsList_append]
      cases hp : jsIsPoint l with
      | some p =>
        rw [ih rest (by omega)]
        simp [dfsList, dfsFlatten, hp]
      | none =>
        have hsz : sizeL (l.reverse ++ rest) ≤ fuel := by
          rw [sizeL_append, sizeL_reverse]
          omega
        rw [ih (l.reverse ++ rest) hsz]
        rw [List.reverse_append, List.reverse_reverse, dfsList_append]
        simp [dfsList, dfsFlatten, hp]

theorem flattenCoords_eq_reverse_dfs (coords : List JVal) :
    flattenCoords coords = (dfsList coords).reverse := by
  rw [flattenCoords, flattenLoop,
    flattenLoopF_eq_of_fuel (sizeL coords.reverse) coords.reverse le_rfl,
    List.reverse_reverse]

theorem lookup_eq_none_iff (l : List (String × Accum)) (c : String) :
    l.lookup c = none ↔ c ∉ l.map Prod.fst := by
  induction l with
  | nil => simp [List.lookup]
  | cons e es ih =>
    obtain ⟨k, v⟩ := e
    by_cases h : c = k
    · subst h
      simp [List.lookup]
    · simp [List.lookup, h, ih, beq_false_of_ne h]

theorem mem_of_lookup_some (l : List (String × Accum)) (c : String) (a : Accum)
    (h : l.lookup c = some a) : (c, a) ∈ l := by
  induction l with
  | nil => simp [List.lookup] at h
  | cons e es ih =>
    obtain ⟨k, v⟩ := e
    by_cases hk : c = k
    · subst hk
      rw [List.lookup, beq_self_eq_true] at h
      simp only [Option.some.injEq] at h
      subst h
      exact List.mem_cons_self _ _
    · rw [List.lookup, beq_false_of_ne hk] at h
      exact List.mem_cons_of_mem _ (ih h)

theorem lookup_some_of_mem_nodup (l : List (String × Accum)) (c : String)
    (a : Accum) (hnd : (l.map Prod.fst).Nodup) (hmem : (c, a) ∈ l) :
    l.lookup c = some a := by
  induction l with
  | nil => simp at hmem
  | cons e es ih =>
    obtain ⟨k, v⟩ := e
    rw [List.map_cons, List.nodup_cons] at hnd
    rcases List.mem_cons.mp hmem with heq | htail
    · rw [Prod.mk.injEq] at heq
      obtain ⟨rfl, rfl⟩ := heq
      rw [List.lookup, beq_self_eq_true]
    · by_cases hk : c = k
      · subst hk
        exact absurd (List.mem_map.mpr ⟨(c, a), htail, rfl⟩) hnd.1
      · rw [List.lookup, beq_false_of_ne hk]
        exact ih hnd.2 htail

theorem lookup_append (l1 l2 : List (String × Accum)) (c : String) :
    (l1 ++ l2).lookup c =
      match l1.lookup c with
      | some v => some v
      | none => l2.lookup c := by
  induction l1 with
  | nil => simp [List.lookup]
  | cons e es ih =>
    obtain ⟨k, v⟩ := e
    by_cases hk : c = k
    · subst hk
      simp [List.lookup]
    · rw [List.cons_append, List.lookup, List.lookup, beq_false_of_ne hk, ih]

theorem lookup_map_update (l : List (String × Accum)) (code : String)
    (upd : Accum → Accum) (c : String) :
    (l.map fun e => if e.1 = code then (e.1, upd e.2) else e).lookup c =
      if c = code then (l.lookup c).map upd else l.lookup c := by
  induction l with
  | nil => simp [List.lookup]
  | cons e es ih =>
    obtain ⟨k, v⟩ := e
    rw [List.map_cons]
    by_cases hkc : k = code
    · subst hkc
      rw [if_pos rfl]
      by_cases hc : c = k
      · subst hc
        simp [List.lookup]
      · rw [List.lookup, List.lookup, beq_false_of_ne hc, ih, if_neg hc]
    · rw [if_neg hkc]
      by_cases hc : c = k
      · subst hc
        rw [List.lookup, List.lookup, beq_self_eq_true, if_neg hkc]
      · rw [List.lookup, List.lookup, beq_false_of_ne hc, ih]

theorem keys_map_update (l : List (String × Accum)) (code : String)
    (upd : Accum → Accum) :
    (l.map fun e => if e.1 = code then (e.1, upd e.2) else e).map Prod.fst =
      l.map Prod.fst := by
  rw [List.map_map]
  apply List.map_congr_left
  intro e _
  by_cases h : e.1 = code <;> simp [h]

theorem foldl_min_le_init (xs : List ℚ) : ∀ a : ℚ, xs.foldl min a ≤ a := by
  induction xs with
  | nil => intro a; exact le_rfl
  | cons x xs ih =>
    intro a
    exact le_trans (ih (min a x)) (min_le_left a x)

theorem foldl_min_le_mem (xs : List ℚ) :
    ∀ (a y : ℚ), y ∈ xs → xs.foldl min a ≤ y := by
  induction xs with
  | nil => intro a y hy; simp at hy
  | cons x xs ih =>
    intro a y hy
    rcases List.mem_cons.mp hy with rfl | hm
    · exact le_trans (foldl_min_le_init xs (min a y)) (min_le_right a y)
    · exact ih (min a x) y hm

theorem foldl_min_mem (xs : List ℚ) :
    ∀ a : ℚ, xs.foldl min a = a ∨ xs.foldl min a ∈ xs := by
  induction xs with
  | nil => intro a; exact .inl rfl
  | cons x xs ih =>
    intro a
    rcases ih (min a x) with h | h
    · rcases min_choice a x with hm | hm
      · rw [List.foldl_cons, h, hm]
        exact .inl rfl
      · rw [List.foldl_cons, h, hm]
        exact .inr (List.mem_cons_self _ _)
    · exact .inr (List.mem_cons_of_mem _ (by rw [List.foldl_cons]; exact h))

theorem minList_le (l : List ℚ) (y : ℚ) (hy : y ∈ l) : minList l ≤ y := by
  cases l with
  | nil => simp at hy
  | cons x xs =>
    rw [minList]
    rcases List.mem_cons.mp hy with rfl | hm
    · exact foldl_min_le_init xs y
    · exact foldl_min_le_mem xs x y hm

theorem minList_mem (l : List ℚ) (hl : l ≠ []) : minList l ∈ l := by
  cases l with
  | nil => exact absurd rfl hl
  | cons x xs =>
    rw [minList]
    rcases foldl_min_mem xs x with h | h
    · rw [h]; exact List.mem_cons_self _ _
    · exact List.mem_cons_of_mem _ h

theorem foldl_max_ge_init (xs : List ℚ) : ∀ a : ℚ, a ≤ xs.foldl max a := by
  induction xs with
  | nil => intro a; exact le_rfl
  | cons x xs ih =>
    intro a
    exact le_trans (le_max_left a x) (ih (max a x))

theorem foldl_max_ge_mem (xs : List ℚ) :
    ∀ (a y : ℚ), y ∈ xs → y ≤ xs.foldl max a := by
  induction xs with
  | nil => intro a y hy; simp at hy
  | cons x xs ih =>
    intro a y hy
    rcases List.mem_cons.mp hy with rfl | hm
    · exact le_trans (le_max_right a y) (foldl_max_ge_init xs (max a y))
    · exact ih (max a x) y hm

theorem foldl_max_mem (xs : List ℚ) :
    ∀ a : ℚ, xs.foldl max a = a ∨ xs.foldl max a ∈ xs := by
  induction xs with
  | nil => intro a; exact .inl rfl
  | cons x xs ih =>
    intro a
    rcases ih (max a x) with h | h
    · rcases max_choice a x with hm | hm
      · rw [List.foldl_cons, h, hm]
        exact .inl rfl
      · rw [List.foldl_cons, h, hm]
        exact .inr (List.mem_cons_self _ _)
    · exact .inr (List.mem_cons_of_mem _ (by rw [List.foldl_cons]; exact h))

theorem maxList_ge (l : List ℚ) (y : ℚ) (hy : y ∈ l) : y ≤ maxList l := by
  cases l with
  | nil => simp at hy
  | cons x xs =>
    rw [maxList]
    rcases List.mem_cons.mp hy with rfl | hm
    · exact foldl_max_ge_init xs y
    · exact foldl_max_ge_mem xs x y hm

theorem maxList_mem (l : List ℚ) (hl : l ≠ []) : maxList l ∈ l := by
  cases l with
  | nil => exact absurd rfl hl
  | cons x xs =>
    rw [maxList]
    rcases foldl_max_mem xs x with h | h
    · rw [h]; exact List.mem_cons_self _ _
    · exact List.mem_cons_of_mem _ h

theorem foldl_add_shift (b : List ℚ) : ∀ c : ℚ, b.foldl (· + ·) c = c + b.foldl (· + ·) 0 := by
  induction b with
  | nil => intro c; simp
  | cons x xs ih =>
    intro c
    rw [List.foldl_cons, List.foldl_cons, ih (c + x), ih (0 + x)]
    ring

theorem sumList_append (a b : List ℚ) :
    sumList (a ++ b) = sumList a + sumList b := by
  rw [sumList, sumList, sumList, List.foldl_append, foldl_add_shift]

theorem sumList_reverse (l : List ℚ) : sumList l.reverse = sumList l := by
  induction l with
  | nil => rfl
  | cons x xs ih =>
    rw [List.reverse_cons, sumList_append, ih]
    simp only [sumList, List.foldl_cons, List.foldl_nil]
    rw [foldl_add_shift xs (0 + x)]
    ring

theorem lookup_singleton (code c : String) (a : Accum) :
    ([(code, a)] : List (String × Accum)).lookup c =
      if c = code then some a else none := by
  by_cases h : c = code
  · subst h
    simp [List.lookup]
  · simp [List.lookup, beq_false_of_ne h, h]

theorem lookup_map_update_coords (l : List (String × Accum)) (code : String)
    (g : JVal) (c : String) :
    (l.map fun e =>
      if e.1 = code then (e.1, { e.2 with coords := e.2.coords ++ [g] }) else e).lookup c =
      if c = code then
        (l.lookup c).map fun a => { a with coords := a.coords ++ [g] }
      else l.lookup c :=
  lookup_map_update l code (fun a => { a with coords := a.coords ++ [g] }) c

theorem keys_map_update_coords (l : List (String × Accum)) (code : String)
    (g : JVal) :
    (l.map fun e =>
      if e.1 = code then (e.1, { e.2 with coords := e.2.coords ++ [g] }) else e).map
        Prod.fst = l.map Prod.fst :=
  keys_map_update l code (fun a => { a with coords := a.coords ++ [g] })

theorem any_key_iff (groups : List (String × Accum)) (c : String) :
    groups.any (fun e => e.1 == c) = true ↔ c ∈ groups.map Prod.fst := by
  rw [List.any_eq_true]
  constructor
  · rintro ⟨e, he, hb⟩
    exact List.mem_map.mpr ⟨e, he, by simpa using hb⟩
  · intro hm
    obtain ⟨e, he, hfst⟩ := List.mem_map.mp hm
    exact ⟨e, he, by simp [hfst]⟩

theorem keptFeature_iff (f : Feature) :
    keptFeature f = true ↔
      jsOrEmpty f.N03_004 ≠ "" ∧ jsOrEmpty f.N03_007 ≠ "" := by
  simp [keptFeature]

theorem addFeature_not_kept (groups : List (String × Accum)) (f : Feature)
    (h : keptFeature f = false) : addFeature groups f = groups := by
  have hcond : jsOrEmpty f.N03_004 = "" ∨ jsOrEmpty f.N03_007 = "" := by
    by_contra hcon
    push_neg at hcon
    have htrue := (keptFeature_iff f).mpr hcon
    rw [h] at htrue
    exact Bool.false_ne_true htrue
  simp only [addFeature]
  rw [if_pos hcond]

theorem addFeature_lookup_hit (groups : List (String × Accum)) (f : Feature)
    (c : String) (hkept : keptFeature f = true) (hc : jsOrEmpty f.N03_007 = c) :
    ((addFeature groups f).lookup c).map Accum.coords =
      some ((((groups.lookup c).map Accum.coords).getD []) ++ featCoords f) := by
  obtain ⟨h4, h7⟩ := (keptFeature_iff f).mp hkept
  subst hc
  simp only [addFeature]
  rw [if_neg (by push_neg; exact ⟨h4, h7⟩)]
  by_cases hany : groups.any (fun e => e.1 == jsOrEmpty f.N03_007) = true
  · rw [if_pos hany]
    have hmem : jsOrEmpty f.N03_007 ∈ groups.map Prod.fst := (any_key_iff _ _).mp hany
    cases hl : groups.lookup (jsOrEmpty f.N03_007) with
    | none => exact absurd hmem ((lookup_eq_none_iff _ _).mp hl)
    | some a =>
      cases hg : f.geometry with
      | none =>
        simp only [hg]
        rw [hl]
        simp [featCoords, hg]
      | some g =>
        simp only [hg]
        rw [lookup_map_update_coords, if_pos rfl, hl]
        simp [featCoords, hg]
  · rw [if_neg hany]
    have hnone : groups.lookup (jsOrEmpty f.N03_007) = none :=
      (lookup_eq_none_iff _ _).mpr fun hm => hany ((any_key_iff _ _).mpr hm)
    cases hg : f.geometry with
    | none =>
      simp only [hg]
      rw [lookup_append, hnone]
      simp [lookup_singleton, featCoords, hg, hnone]
    | some g =>
      simp only [hg]
      rw [lookup_map_update_coords, if_pos rfl, lookup_append, hnone]
      simp [lookup_singleton, featCoords, hg, hnone]

theorem addFeature_lookup_miss (groups : List (String × Accum)) (f : Feature)
    (c : String) (h : keptFeature f = false ∨ jsOrEmpty f.N03_007 ≠ c) :
    (addFeature groups f).lookup c = groups.lookup c := by
  rcases h with hk | hc
  · rw [addFeature_not_kept groups f hk]
  · by_cases hkept : keptFeature f = true
    · obtain ⟨h4, h7⟩ := (keptFeature_iff f).mp hkept
      simp only [addFeature]
      rw [if_neg (by push_neg; exact ⟨h4, h7⟩)]
      by_cases hany : groups.any (fun e => e.1 == jsOrEmpty f.N03_007) = true
      · rw [if_pos hany]
        cases hg : f.geometry with
        | none => simp only [hg]
        | some g =>
          simp only [hg]
          rw [lookup_map_update_coords, if_neg fun he => hc he.symm]
      · rw [if_neg hany]
        cases hg : f.geometry with
        | none =>
          simp only [hg]
          rw [lookup_append, lookup_singleton, if_neg fun he => hc he.symm]
          cases groups.lookup c <;> rfl
        | some g =>
          simp only [hg]
          rw [lookup_map_update_coords, if_neg fun he => hc he.symm, lookup_append,
            lookup_singleton, if_neg fun he => hc he.symm]
          cases groups.lookup c <;> rfl
    · rw [addFeature_not_kept groups f (by revert hkept; cases keptFeature f <;> simp)]

theorem pooledCoords_cons (f : Feature) (fs : List Feature) (c : String) :
    pooledCoords (f :: fs) c =
      (if (keptFeature f && (jsOrEmpty f.N03_007 == c)) = true then featCoords f
       else []) ++ pooledCoords fs c := by
  rw [pooledCoords, pooledCoords, List.filter_cons]
  by_cases h : (keptFeature f && (jsOrEmpty f.N03_007 == c)) = true
  · rw [if_pos h, if_pos h, List.flatMap_cons]
  · rw [if_neg h, if_neg h, List.nil_append]

theorem foldl_addFeature_lookup (fs : List Feature) :
    ∀ (groups : List (String × Accum)) (c : String),
    ((fs.foldl addFeature groups).lookup c).map Accum.coords =
      match (groups.lookup c).map Accum.coords with
      | some l => some (l ++ pooledCoords fs c)
      | none =>
        if fs.any (fun f => keptFeature f && (jsOrEmpty f.N03_007 == c)) then
          some (pooledCoords fs c)
        else none := by
  induction fs with
  | nil =>
    intro groups c
    cases hl : (groups.lookup c).map Accum.coords with
    | some l => simp [pooledCoords, hl]
    | none => simp [hl]
  | cons f fs ih =>
    intro groups c
    rw [List.foldl_cons, ih (addFeature groups f) c, pooledCoords_cons]
    by_cases hcond : (keptFeature f && (jsOrEmpty f.N03_007 == c)) = true
    · have hkept : keptFeature f = true := (Bool.and_eq_true _ _).mp hcond |>.1
      have hc : jsOrEmpty f.N03_007 = c := by
        have := (Bool.and_eq_true _ _).mp hcond |>.2
        simpa using this
      rw [addFeature_lookup_hit groups f c hkept hc, if_pos hcond]
      cases hl : (groups.lookup c).map Accum.coords with
      | some l => simp [hl, List.append_assoc]
      | none => simp [hl, List.any_cons, hcond]
    · have hcf : (keptFeature f && (jsOrEmpty f.N03_007 == c)) = false := by
        revert hcond
        cases keptFeature f && (jsOrEmpty f.N03_007 == c) <;> simp
      have hmiss : keptFeature f = false ∨ jsOrEmpty f.N03_007 ≠ c := by
        by_cases hk : keptFeature f = true
        · right
          intro he
          rw [hk, he] at hcf
          simp at hcf
        · left
          revert hk
          cases keptFeature f <;> simp
      rw [addFeature_lookup_miss groups f c hmiss, if_neg hcond, List.nil_append]
      cases hl : (groups.lookup c).map Accum.coords with
      | some l => simp [hl]
      | none => simp [hl, List.any_cons, hcf]

theorem keys_addFeature_nodup (groups : List (String × Accum)) (f : Feature)
    (hnd : (groups.map Prod.fst).Nodup) :
    ((addFeature groups f).map Prod.fst).Nodup := by
  by_cases hkept : keptFeature f = true
  · obtain ⟨h4, h7⟩ := (keptFeature_iff f).mp hkept
    simp only [addFeature]
    rw [if_neg (by push_neg; exact ⟨h4, h7⟩)]
    by_cases hany : groups.any (fun e => e.1 == jsOrEmpty f.N03_007) = true
    · rw [if_pos hany]
      cases hg : f.geometry with
      | none => simp only [hg]; exact hnd
      | some g =>
        simp only [hg]
        rw [keys_map_update_coords]
        exact hnd
    · rw [if_neg hany]
      have hnotin : jsOrEmpty f.N03_007 ∉ groups.map Prod.fst :=
        fun hm => hany ((any_key_iff _ _).mpr hm)
      cases hg : f.geometry with
      | none =>
        simp only [hg]
        rw [List.map_append]
        simp [List.nodup_append, hnd, hnotin, List.disjoint_singleton]
      | some g =>
        simp only [hg]
        rw [keys_map_update_coords, List.map_append]
        simp [List.nodup_append, hnd, hnotin, List.disjoint_singleton]
  · rw [addFeature_not_kept groups f (by revert hkept; cases keptFeature f <;> simp)]
    exact hnd

theorem foldl_keys_nodup (fs : List Feature) :
    ∀ groups : List (String × Accum), (groups.map Prod.fst).Nodup →
    (((fs.foldl addFeature groups)).map Prod.fst).Nodup := by
  induction fs with
  | nil => intro groups h; exact h
  | cons f fs ih =>
    intro groups h
    rw [List.foldl_cons]
    exact ih (addFeature groups f) (keys_addFeature_nodup groups f h)

theorem emitRecord_code (c : String) (a : Accum) (r : Municipality)
    (h : emitRecord c a = some r) : r.code = c := by
  simp only [emitRecord] at h
  split at h
  · exact absurd h (by simp)
  · rw [Option.some.injEq] at h
    subst h
    rfl

theorem filterMap_codes_sublist (groups : List (String × Accum)) :
    ((groups.filterMap fun e => emitRecord e.1 e.2).map Municipality.code).Sublist
      (groups.map Prod.fst) := by
  induction groups with
  | nil => simp
  | cons e es ih =>
    rw [List.filterMap_cons]
    cases he : emitRecord e.1 e.2 with
    | none =>
      rw [List.map_cons]
      exact ih.cons _
    | some r =>
      rw [List.map_cons, List.map_cons, emitRecord_code e.1 e.2 r he]
      exact ih.cons₂ _

theorem dfsList_map_point (ps : List Pt) :
    dfsList (ps.map fun p => JVal.arr [JVal.num p.1, JVal.num p.2]) = ps := by
  induction ps with
  | nil => rfl
  | cons p rest ih =>
    rw [List.map_cons, dfsList, ih, dfsFlatten]
    rfl

theorem zip_rotate_ofFn (ring : Ring) :
    (ring.zip (ring.rotate 1)).map
      (fun pq => pq.1.1 * pq.2.2 - pq.2.1 * pq.1.2) =
      List.ofFn (fun i : Fin ring.length =>
        (ring.get i).1 * (ring.get (cyclicNext ring.length i)).2 -
        (ring.get (cyclicNext ring.length i)).1 * (ring.get i).2) := by
  apply List.ext_getElem
  · simp [List.length_zip, List.length_rotate]
  · intro i h1 h2
    have hi : i < ring.length := by
      simpa [List.length_zip, List.length_rotate] using h1
    rw [List.getElem_map, List.getElem_ofFn, List.getElem_zip, List.getElem_rotate]
    simp only [cyclicNext, List.get_eq_getElem]

/-! ## Claim theorems -/

/-- C1: for every built category table and every unit, the compiled color
rule assigns the unit the color of the first category, in insertion
order, whose member set contains the unit's compound key (county-or-empty
concatenated with city-or-empty); a unit matching no category resolves to
the fixed default gray. -/
theorem c1_first_match_color (headerColors : List (String × String))
    (table : CategoryTable) (u : TileProps) :
    evalColorExpr (buildColorExpression headerColors table) u =
      firstMatchColor headerColors table u := by
  rw [buildColorExpression]
  by_cases hlen :
      (table.foldl
        (fun acc e => e.2.foldl (fun a c => if c ∈ a then a else a ++ [c]) acc)
        []).length = 0
  · rw [if_pos hlen]
    have hfind : table.find? (fun e => e.2.contains (compoundKey u)) = none := by
      rw [List.find?_eq_none]
      intro e he hcon
      have hk : compoundKey u ∈ e.2 := by simpa using hcon
      have hmem := mem_unionFold table [] (compoundKey u) (.inr ⟨e, he, hk⟩)
      rw [List.length_eq_zero] at hlen
      rw [hlen] at hmem
      simp at hmem
    rw [evalColorExpr, firstMatchColor, hfind]
  · rw [if_neg hlen]
    rw [evalColorExpr, firstMatchColor]
    rw [List.find?_map]
    have hcomp :
        ((fun b : List String × String => b.1.contains (compoundKey u)) ∘
          fun e : String × List String =>
            (e.2, resolveColor headerColors table e.1)) =
        fun e : String × List String => e.2.contains (compoundKey u) := rfl
    rw [hcomp]
    cases table.find? fun e => e.2.contains (compoundKey u) with
    | none => rfl
    | some e => rfl

/-- C2 counterexample: a reload whose `complete` callback throws at an
array-valued cell fails, yet leaves the table cleared and partially
repopulated instead of byte-for-byte equal to its pre-reload value. -/
theorem c2_failed_reload_counterexample :
    (loadCSV preTable badOutcome).2 = false ∧
    (loadCSV preTable badOutcome).1 ≠ preTable := by
  decide

/-- C2 amended: a reload that fails before the `complete` callback runs
(fetch error, or a parse error signalled through the `error` callback)
leaves the category table exactly as it was; but a reload whose
`complete` callback throws mid-parse does not, because the table is
cleared first and repopulated in place. -/
theorem c2_failure_preserves_table (st : CategoryTable) (o : FetchOutcome)
    (h : o = .fetchFailure ∨ o = .parseFailure) :
    loadCSV st o = (st, false) := by
  rcases h with rfl | rfl <;> rfl

/-- C2 amended witness at a concrete pre-reload table. -/
theorem c2_failure_preserves_table_witness :
    loadCSV preTable .fetchFailure = (preTable, false) :=
  c2_failure_preserves_table preTable .fetchFailure (Or.inl rfl)

/-- C3 counterexample: `highlight` never cancels the pending expiry
timer.  Re-highlighting the same code 4 units later and letting the first
timer fire clears the highlight under the source semantics, while the
claimed cancel-on-highlight semantics would keep it. -/
theorem c3_no_cancellation_counterexample :
    doubleSame.highlightedCode = none ∧
    doubleSameSpec.highlightedCode = some "13101" ∧
    doubleSame.highlightedCode ≠ doubleSameSpec.highlightedCode := by
  decide

/-- C3 amended: `highlight(code)` sets the active code and arms an
additional 5-unit timer without cancelling pending ones; a timer's firing
clears the highlight only if the active code still equals its armed code,
so after `highlight(c1)` immediately followed by `highlight(c2)` with
`c1 ≠ c2` the active code is `c2`, the stale first timer's firing leaves
it `c2`, and both timers remain queued. -/
theorem c3_supersession (c1 c2 : String) (t0 t1 : Nat) (h : c1 ≠ c2) :
    (highlightMunicipality t1 c2
      (highlightMunicipality t0 c1 initialHighlightState)).highlightedCode =
        some c2 ∧
    (timerFires c1 (highlightMunicipality t1 c2
      (highlightMunicipality t0 c1 initialHighlightState))).highlightedCode =
        some c2 ∧
    (highlightMunicipality t1 c2
      (highlightMunicipality t0 c1 initialHighlightState)).timers =
        [(t0 + 5, c1), (t1 + 5, c2)] := by
  refine ⟨rfl, ?_, rfl⟩
  rw [timerFires, if_neg]
  · rfl
  · intro heq
    rw [highlightMunicipality] at heq
    simp only [Option.some.injEq] at heq
    exact h heq.symm

/-- C3 amended witness at the spec's example codes. -/
theorem c3_supersession_witness :
    (highlightMunicipality 0 "13102"
      (highlightMunicipality 0 "13101" initialHighlightState)).highlightedCode =
        some "13102" ∧
    (timerFires "13101" (highlightMunicipality 0 "13102"
      (highlightMunicipality 0 "13101" initialHighlightState))).highlightedCode =
        some "13102" ∧
    (highlightMunicipality 0 "13102"
      (highlightMunicipality 0 "13101" initialHighlightState)).timers =
        [(0 + 5, "13101"), (0 + 5, "13102")] :=
  c3_supersession "13101" "13102" 0 0 (by decide)

/-- C4: for every search-data collection and non-empty query, the query
operation returns exactly the units one of whose fullName, city or
prefecture contains the query case-insensitively, in storage order,
truncated to at most 10, and the result is an order-preserving
subsequence of the collection. -/
theorem c4_search_results (data : List Municipality) (q : String)
    (_h : q ≠ "") :
    showSearchResults data q = (data.filter (unitMatches q)).take 10 ∧
    (showSearchResults data q).Sublist data ∧
    (showSearchResults data q).length ≤ 10 := by
  refine ⟨rfl, ?_, ?_⟩
  · exact (List.take_sublist _ _).trans (List.filter_sublist _)
  · exact List.length_take_le _ _

/-- C4 witness: the spec's ranking-stability example. -/
theorem c4_search_results_witness :
    showSearchResults [sampleMuni, sampleMuni2] "Shi" =
      (([sampleMuni, sampleMuni2]).filter (unitMatches "Shi")).take 10 ∧
    (showSearchResults [sampleMuni, sampleMuni2] "Shi").Sublist
      [sampleMuni, sampleMuni2] ∧
    (showSearchResults [sampleMuni, sampleMuni2] "Shi").length ≤ 10 :=
  c4_search_results [sampleMuni, sampleMuni2] "Shi" (by decide)

/-- C5: an empty or whitespace-only raw query yields no results. -/
theorem c5_whitespace_query (data : List Municipality) (raw : String)
    (h : ∀ c ∈ raw.data, isJsWs c = true) :
    handleSearchInput data raw = [] := by
  rw [handleSearchInput, jsTrim_of_all_ws raw h]
  rfl

/-- C5 witness: a whitespace-only query over a nonempty collection. -/
theorem c5_whitespace_query_witness :
    (∀ c ∈ ("  " : String).data, isJsWs c = true) ∧
    handleSearchInput [sampleMuni] "  " = [] :=
  ⟨by decide, c5_whitespace_query [sampleMuni] "  " (by decide)⟩

/-- C10: every category key present in a table built from tabular rows
maps to a nonempty member set, and a header whose cells are all missing,
empty or whitespace-only never appears as a key at all. -/
theorem c10_no_empty_categories :
    (∀ (rows : List Row) (k : String) (s : List String),
      (k, s) ∈ (runRows [] rows).1 → s ≠ []) ∧
    (∀ (rows : List Row) (k : String),
      (∀ r ∈ rows, ∀ c : Cell, (k, c) ∈ r →
        ∃ s, c = Cell.str s ∧ jsTrim s = "") →
      k ∉ (runRows [] rows).1.map Prod.fst) := by
  constructor
  · intro rows k s hmem
    exact runRows_nonempty rows [] (by simp) (k, s) hmem
  · intro rows k hblank
    exact runRows_keys rows k [] (by simp) hblank

/-- C10 witness: a concrete table with one populated key. -/
theorem c10_no_empty_categories_witness :
    ("A", ["x"]) ∈ (runRows [] [[("A", Cell.str " x ")]]).1 ∧
    (["x"] : List String) ≠ [] :=
  ⟨by decide, c10_no_empty_categories.1 [[("A", Cell.str " x ")]] "A" ["x"]
    (by decide)⟩

/-- C8 counterexample: the stack flattener applied to the already-flat
point sequence [(0,0), (1,1)] returns [(1,1), (0,0)], not the same
sequence in the same depth-first order. -/
theorem c8_flatten_order_counterexample :
    flattenCoords [mkPt 0 0, mkPt 1 1] = [((1 : ℚ), (1 : ℚ)), (0, 0)] ∧
    dfsList [mkPt 0 0, mkPt 1 1] = [((0 : ℚ), (0 : ℚ)), (1, 1)] ∧
    flattenCoords [mkPt 0 0, mkPt 1 1] ≠ dfsList [mkPt 0 0, mkPt 1 1] := by
  have h1 : dfsList [mkPt 0 0, mkPt 1 1] = [((0 : ℚ), (0 : ℚ)), (1, 1)] := by
    have := dfsList_map_point [((0 : ℚ), (0 : ℚ)), (1, 1)]
    simpa [mkPt] using this
  have h2 : flattenCoords [mkPt 0 0, mkPt 1 1] = [((1 : ℚ), (1 : ℚ)), (0, 0)] := by
    rw [flattenCoords_eq_reverse_dfs, h1]
    rfl
  refine ⟨h2, h1, ?_⟩
  rw [h1, h2]
  intro h
  have := List.head_eq_of_cons_eq h
  rw [Prod.mk.injEq] at this
  exact one_ne_zero this.1

/-- C8 amended: the stack flattener returns the flat sequence of all
contained points in reverse depth-first order; an already-flat point
sequence comes back reversed; empty or malformed geometry (a bare
number, an empty array) yields the empty sequence rather than failing. -/
theorem c8_flatten_reverse_dfs :
    (∀ coords : List JVal, flattenCoords coords = (dfsList coords).reverse) ∧
    (∀ ps : List Pt,
      flattenCoords (ps.map fun p => JVal.arr [JVal.num p.1, JVal.num p.2]) =
        ps.reverse) ∧
    flattenCoords [] = [] ∧
    (∀ q : ℚ, flattenCoords [JVal.num q] = []) ∧
    flattenCoords [JVal.arr []] = [] := by
  refine ⟨flattenCoords_eq_reverse_dfs, ?_, rfl, ?_, ?_⟩
  · intro ps
    rw [flattenCoords_eq_reverse_dfs, dfsList_map_point]
  · intro q
    rfl
  · rfl

/-- C7: the aggregated collection is sorted by the code field, every
adjacent pair in lexicographic string order. -/
theorem c7_output_sorted_by_code (features : List Feature) :
    List.Chain' (fun a b : Municipality => a.code ≤ b.code)
      (extractMunicipalities features) := by
  have h := List.sorted_insertionSort muniLE
    ((features.foldl addFeature []).filterMap fun e => emitRecord e.1 e.2)
  exact h.chain'

/-- C6: the aggregation groups features by code (one record per code),
pools the vertices of all features sharing one code, and emits records
whose center is the componentwise arithmetic mean of all pooled vertices
and whose bounds are the componentwise minimum/maximum over all pooled
vertices, each axis independently rounded to 4 decimal places; every kept
feature whose code pools at least one point is represented. -/
theorem c6_aggregation :
    (∀ fs : List Feature,
      ((extractMunicipalities fs).map Municipality.code).Nodup) ∧
    (∀ (fs : List Feature) (r : Municipality), r ∈ extractMunicipalities fs →
      pooledPoints fs r.code ≠ [] ∧
      r.center =
        (round4 (sumList ((pooledPoints fs r.code).map Prod.fst) /
           (pooledPoints fs r.code).length),
         round4 (sumList ((pooledPoints fs r.code).map Prod.snd) /
           (pooledPoints fs r.code).length)) ∧
      (∃ m ∈ (pooledPoints fs r.code).map Prod.fst,
        (∀ y ∈ (pooledPoints fs r.code).map Prod.fst, m ≤ y) ∧
        r.bounds.1.1 = round4 m) ∧
      (∃ m ∈ (pooledPoints fs r.code).map Prod.snd,
        (∀ y ∈ (pooledPoints fs r.code).map Prod.snd, m ≤ y) ∧
        r.bounds.1.2 = round4 m) ∧
      (∃ m ∈ (pooledPoints fs r.code).map Prod.fst,
        (∀ y ∈ (pooledPoints fs r.code).map Prod.fst, y ≤ m) ∧
        r.bounds.2.1 = round4 m) ∧
      (∃ m ∈ (pooledPoints fs r.code).map Prod.snd,
        (∀ y ∈ (pooledPoints fs r.code).map Prod.snd, y ≤ m) ∧
        r.bounds.2.2 = round4 m)) ∧
    (∀ (fs : List Feature) (f : Feature), f ∈ fs → keptFeature f = true →
      pooledPoints fs (jsOrEmpty f.N03_007) ≠ [] →
      ∃ r ∈ extractMunicipalities fs, r.code = jsOrEmpty f.N03_007) := by
  refine ⟨?_, ?_, ?_⟩
  · intro fs
    have hnd := foldl_keys_nodup fs [] (by simp)
    have hsub := filterMap_codes_sublist (fs.foldl addFeature [])
    have hcodes := hsub.nodup hnd
    have hperm :=
      (List.perm_insertionSort muniLE
        ((fs.foldl addFeature []).filterMap fun e => emitRecord e.1 e.2)).map
        Municipality.code
    exact hperm.nodup_iff.mpr hcodes
  · intro fs r hr
    have hr' : r ∈ (fs.foldl addFeature []).filterMap fun e => emitRecord e.1 e.2 :=
      (List.perm_insertionSort muniLE _).mem_iff.mp hr
    obtain ⟨e, he, hemit⟩ := List.mem_filterMap.mp hr'
    obtain ⟨c, a⟩ := e
    have hnd := foldl_keys_nodup fs [] (by simp)
    have hlk : (fs.foldl addFeature []).lookup c = some a :=
      lookup_some_of_mem_nodup _ _ _ hnd he
    have hfold2 : ((fs.foldl addFeature []).lookup c).map Accum.coords =
        (if fs.any (fun f => keptFeature f && (jsOrEmpty f.N03_007 == c)) then
          some (pooledCoords fs c)
        else none) := foldl_addFeature_lookup fs [] c
    rw [hlk] at hfold2
    have hcoords : a.coords = pooledCoords fs c := by
      by_cases hany :
          fs.any (fun f => keptFeature f && (jsOrEmpty f.N03_007 == c)) = true
      · rw [if_pos hany] at hfold2
        simpa using hfold2
      · rw [if_neg hany] at hfold2
        simp at hfold2
    simp only [emitRecord] at hemit
    rw [hcoords, flattenCoords_eq_reverse_dfs] at hemit
    rw [show dfsList (pooledCoords fs c) = pooledPoints fs c from rfl] at hemit
    split at hemit
    · exact absurd hemit (by simp)
    · rename_i hne
      rw [Option.some.injEq] at hemit
      subst hemit
      have hne' : pooledPoints fs c ≠ [] := by
        intro h0
        rw [h0] at hne
        simp at hne
      have hmapr : ((pooledPoints fs c).reverse).map Prod.fst =
          ((pooledPoints fs c).map Prod.fst).reverse := List.map_reverse _ _
      have hmapr2 : ((pooledPoints fs c).reverse).map Prod.snd =
          ((pooledPoints fs c).map Prod.snd).reverse := List.map_reverse _ _
      have hfne : (pooledPoints fs c).map Prod.fst ≠ [] := by
        simpa using hne'
      have hsne : (pooledPoints fs c).map Prod.snd ≠ [] := by
        simpa using hne'
      have hiff1 : ∀ y : ℚ, y ∈ (((pooledPoints fs c).reverse).map Prod.fst) ↔
          y ∈ ((pooledPoints fs c).map Prod.fst) := fun y => by
        rw [hmapr, List.mem_reverse]
      have hiff2 : ∀ y : ℚ, y ∈ (((pooledPoints fs c).reverse).map Prod.snd) ↔
          y ∈ ((pooledPoints fs c).map Prod.snd) := fun y => by
        rw [hmapr2, List.mem_reverse]
      refine ⟨hne', ?_, ?_, ?_, ?_, ?_⟩
      · show (round4 (sumList (((pooledPoints fs c).reverse).map Prod.fst) /
            (((pooledPoints fs c).reverse)).length),
          round4 (sumList (((pooledPoints fs c).reverse).map Prod.snd) /
            (((pooledPoints fs c).reverse)).length)) = _
        rw [hmapr, hmapr2, sumList_reverse, sumList_reverse, List.length_reverse]
      · refine ⟨minList (((pooledPoints fs c).reverse).map Prod.fst), ?_, ?_, rfl⟩
        · exact (hiff1 _).mp (minList_mem _ (by rw [hmapr]; simpa using hfne))
        · intro y hy
          exact minList_le _ y ((hiff1 y).mpr hy)
      · refine ⟨minList (((pooledPoints fs c).reverse).map Prod.snd), ?_, ?_, rfl⟩
        · exact (hiff2 _).mp (minList_mem _ (by rw [hmapr2]; simpa using hsne))
        · intro y hy
          exact minList_le _ y ((hiff2 y).mpr hy)
      · refine ⟨maxList (((pooledPoints fs c).reverse).map Prod.fst), ?_, ?_, rfl⟩
        · exact (hiff1 _).mp (maxList_mem _ (by rw [hmapr]; simpa using hfne))
        · intro y hy
          exact maxList_ge _ y ((hiff1 y).mpr hy)
      · refine ⟨maxList (((pooledPoints fs c).reverse).map Prod.snd), ?_, ?_, rfl⟩
        · exact (hiff2 _).mp (maxList_mem _ (by rw [hmapr2]; simpa using hsne))
        · intro y hy
          exact maxList_ge _ y ((hiff2 y).mpr hy)
  · intro fs f hf hkept hne
    have hany :
        fs.any (fun f' => keptFeature f' &&
          (jsOrEmpty f'.N03_007 == jsOrEmpty f.N03_007)) = true :=
      List.any_eq_true.mpr ⟨f, hf, by simp [hkept]⟩
    have hfold2 : ((fs.foldl addFeature []).lookup (jsOrEmpty f.N03_007)).map
        Accum.coords =
        (if fs.any (fun f' => keptFeature f' &&
            (jsOrEmpty f'.N03_007 == jsOrEmpty f.N03_007)) then
          some (pooledCoords fs (jsOrEmpty f.N03_007))
        else none) := foldl_addFeature_lookup fs [] (jsOrEmpty f.N03_007)
    rw [if_pos hany] at hfold2
    cases hlk : (fs.foldl addFeature []).lookup (jsOrEmpty f.N03_007) with
    | none =>
      rw [hlk] at hfold2
      simp at hfold2
    | some a =>
      rw [hlk] at hfold2
      have hcoords : a.coords = pooledCoords fs (jsOrEmpty f.N03_007) := by
        simpa using hfold2
      have hmem : (jsOrEmpty f.N03_007, a) ∈ fs.foldl addFeature [] :=
        mem_of_lookup_some _ _ _ hlk
      have hptsne :
          ((pooledPoints fs (jsOrEmpty f.N03_007)).reverse).isEmpty = false := by
        rw [List.isEmpty_eq_false_iff_exists_mem]
        rcases List.exists_mem_of_ne_nil _ hne with ⟨p, hp⟩
        exact ⟨p, List.mem_reverse.mpr hp⟩
      have hrec : ∃ rec, emitRecord (jsOrEmpty f.N03_007) a = some rec := by
        simp only [emitRecord]
        rw [hcoords, flattenCoords_eq_reverse_dfs]
        rw [show dfsList (pooledCoords fs (jsOrEmpty f.N03_007)) =
          pooledPoints fs (jsOrEmpty f.N03_007) from rfl]
        rw [hptsne]
        exact ⟨_, rfl⟩
      obtain ⟨rec, hrec⟩ := hrec
      refine ⟨rec, ?_, emitRecord_code _ _ _ hrec⟩
      have hfm : rec ∈ (fs.foldl addFeature []).filterMap
          fun e => emitRecord e.1 e.2 :=
        List.mem_filterMap.mpr ⟨(jsOrEmpty f.N03_007, a), hmem, hrec⟩
      exact (List.perm_insertionSort muniLE _).mem_iff.mpr hfm

/-- C6 witness: the spec's aggregation-merge example, two triangle
features on one code pooling 6 points with centroid their mean. -/
theorem c6_aggregation_witness :
    mergedRecord ∈ extractMunicipalities [featTriangleA, featTriangleB] ∧
    pooledPoints [featTriangleA, featTriangleB] mergedRecord.code ≠ [] ∧
    mergedRecord.center =
      (round4 (sumList
          ((pooledPoints [featTriangleA, featTriangleB] mergedRecord.code).map
            Prod.fst) /
        (pooledPoints [featTriangleA, featTriangleB] mergedRecord.code).length),
       round4 (sumList
          ((pooledPoints [featTriangleA, featTriangleB] mergedRecord.code).map
            Prod.snd) /
        (pooledPoints [featTriangleA, featTriangleB] mergedRecord.code).length)) := by
  have hgroups : [featTriangleA, featTriangleB].foldl addFeature [] =
      [("A", accEx)] := by
    rfl
  have hpts : flattenCoords accEx.coords =
      [((0 : ℚ), (4 : ℚ)), (4, 4), (4, 0), (2, 2), (2, 0), (0, 0)] := by
    have hd : dfsList accEx.coords =
        [((0 : ℚ), (0 : ℚ)), (2, 0), (2, 2), (4, 0), (4, 4), (0, 4)] := by
      simp [accEx, triA, triB, mkPt, dfsList, dfsFlatten, jsIsPoint]
    rw [flattenCoords_eq_reverse_dfs, hd]
    rfl
  have hemit : emitRecord "A" accEx = some mergedRecord := by
    simp only [emitRecord, hpts]
    rw [if_neg (by simp)]
    rw [Option.some.injEq, mergedRecord]
    simp only [Municipality.mk.injEq, accEx]
    norm_num [sumList, minList, maxList, min_def, max_def, round4, jsRound,
      List.foldl_cons, List.foldl_nil]
  have hfm : ([("A", accEx)] : List (String × Accum)).filterMap
      (fun e => emitRecord e.1 e.2) = [mergedRecord] := by
    simp only [List.filterMap_cons, List.filterMap_nil]
    rw [show emitRecord ("A", accEx).1 ("A", accEx).2 = some mergedRecord from hemit]
  have hmem : mergedRecord ∈ extractMunicipalities [featTriangleA, featTriangleB] := by
    show mergedRecord ∈ List.insertionSort muniLE
      (([featTriangleA, featTriangleB].foldl addFeature []).filterMap
        fun e => emitRecord e.1 e.2)
    rw [hgroups, hfm]
    exact (List.perm_insertionSort muniLE [mergedRecord]).mem_iff.mpr
      (List.mem_singleton_self _)
  exact ⟨hmem, (c6_aggregation.2.1 [featTriangleA, featTriangleB] mergedRecord hmem).1,
    (c6_aggregation.2.1 [featTriangleA, featTriangleB] mergedRecord hmem).2.1⟩

/-- C9: for every MultiPolygon, the area filter computes each polygon's
unsigned shoelace area from its outer ring with indices modulo the ring
length, retains exactly the polygons whose area is not below the
threshold, and drops a feature from the collection exactly when every one
of its polygons is discarded. -/
theorem c9_shoelace_area_filter :
    (∀ ring : Ring,
      shoelaceArea ring =
        |∑ i : Fin ring.length,
          ((ring.get i).1 * (ring.get (cyclicNext ring.length i)).2 -
           (ring.get (cyclicNext ring.length i)).1 * (ring.get i).2)| / 2) ∧
    (∀ (t : ℚ) (polys : List Poly),
      filterPolygons t polys =
        polys.filter fun poly => t ≤ shoelaceArea (poly.headD [])) ∧
    (∀ (t : ℚ) (polys : List Poly),
      areaFilterFeature t polys = none ↔
        ∀ poly ∈ polys, shoelaceArea (poly.headD []) < t) ∧
    (∀ (t : ℚ) (features : List (List Poly)),
      areaFilterCollection t features =
        (features.filter fun polys =>
          !(filterPolygons t polys).isEmpty).map (filterPolygons t)) := by
  refine ⟨?_, ?_, ?_, ?_⟩
  · intro ring
    rw [shoelaceArea, zip_rotate_ofFn, List.sum_ofFn]
  · intro t polys
    rw [filterPolygons]
    apply List.filter_congr
    intro poly _
    simp [not_lt]
  · intro t polys
    rw [areaFilterFeature]
    constructor
    · intro h
      split at h
      · rename_i hemp
        rw [filterPolygons, List.isEmpty_iff, List.filter_eq_nil_iff] at hemp
        intro poly hp
        have := hemp poly hp
        simpa [not_lt] using this
      · exact absurd h (by simp)
    · intro h
      rw [if_pos]
      rw [filterPolygons, List.isEmpty_iff, List.filter_eq_nil_iff]
      intro poly hp
      simp only [decide_eq_true_eq, not_not]
      exact h poly hp
  · intro t features
    induction features with
    | nil => rfl
    | cons f fsp ih =>
      rw [areaFilterCollection, List.filterMap_cons]
      rw [areaFilterCollection] at ih
      rw [List.filter_cons]
      cases he : (filterPolygons t f).isEmpty with
      | true =>
        rw [show areaFilterFeature t f = none from by rw [areaFilterFeature, if_pos he]]
        simp [he, ih]
      | false =>
        rw [show areaFilterFeature t f = some (filterPolygons t f) from by
          rw [areaFilterFeature, if_neg (by rw [he]; simp)]]
        simp [he, ih]

/-- C9 witness: a MultiPolygon whose single polygon's outer-ring area 1/2
falls below threshold 1 is dropped entirely. -/
theorem c9_shoelace_area_filter_witness :
    areaFilterFeature 1 [[[((0 : ℚ), (0 : ℚ)), (1, 0), (0, 1)]]] = none := by
  apply (c9_shoelace_area_filter.2.2.1 1 [[[((0 : ℚ), (0 : ℚ)), (1, 0), (0, 1)]]]).mpr
  intro poly hp
  rw [List.mem_singleton] at hp
  subst hp
  show shoelaceArea [((0 : ℚ), (0 : ℚ)), (1, 0), (0, 1)] < 1
  rw [shoelaceArea]
  norm_num [List.rotate]

end GeoMap
